import Mathlib

/-!
Verification of the schedule reconciliation engine of update_tipoff_times.py.

Lines and team names are modelled as lists of characters (the schedule files
are ASCII).  Pure functions of the source are translated directly; the two
external collaborators that the source imports — the fuzzywuzzy scoring
library and the zoneinfo timezone database — are modelled from the spec and
carry a doc comment saying so.
-/

namespace Tipoff

/-- ASCII whitespace as recognised by the Python regex class and str.strip:
space, tab, newline, carriage return, vertical tab, form feed. -/
def isSpaceC (c : Char) : Bool :=
  c.toNat = 32 || c.toNat = 9 || c.toNat = 10 || c.toNat = 13 ||
    c.toNat = 11 || c.toNat = 12

/-- ASCII decimal digit, as matched by the Python regex class d. -/
def isDigitC (c : Char) : Bool :=
  '0' ≤ c && c ≤ '9'

/-- Python str.strip(): remove leading and trailing whitespace. -/
def pyStrip (s : List Char) : List Char :=
  ((s.dropWhile isSpaceC).reverse.dropWhile isSpaceC).reverse

/-- Boolean test that pat occurs at the very beginning of s
(Python str.startswith). -/
def leadsWith : List Char → List Char → Bool
  | [], _ => true
  | _ :: _, [] => false
  | p :: ps, c :: cs => p = c && leadsWith ps cs

/-- Python substring membership test (the in operator on str):
pat occurs contiguously somewhere inside s. -/
def hasSub (pat : List Char) : List Char → Bool
  | [] => leadsWith pat []
  | c :: cs => leadsWith pat (c :: cs) || hasSub pat cs

/-- ASCII lower-casing of one character, as Python str.lower acts on the
ASCII range of the schedule files. -/
def lowerChar (c : Char) : Char :=
  if 65 ≤ c.toNat ∧ c.toNat ≤ 90 then Char.ofNat (c.toNat + 32) else c

/-- ASCII upper-casing of one character, as Python str.upper acts on the
ASCII range (used by the driver for its league-header test). -/
def upperChar (c : Char) : Char :=
  if 97 ≤ c.toNat ∧ c.toNat ≤ 122 then Char.ofNat (c.toNat - 32) else c

/-- ASCII uppercase-letter test. -/
def isUpperC (c : Char) : Bool :=
  65 ≤ c.toNat && c.toNat ≤ 90

/-- Python str.replace(pat, repl): replace every non-overlapping occurrence,
scanning left to right.  Structural recursion on a fuel argument so that the
function evaluates inside the kernel; the fuel is the length of the string,
which the recursion never exhausts because every step consumes at least one
character when the pattern is nonempty. -/
def replaceAllAux (pat repl : List Char) : Nat → List Char → List Char
  | 0, s => s
  | _ + 1, [] => []
  | fuel + 1, c :: cs =>
    if leadsWith pat (c :: cs) then
      repl ++ replaceAllAux pat repl fuel ((c :: cs).drop pat.length)
    else
      c :: replaceAllAux pat repl fuel cs

/-- Python str.replace(pat, repl) on whole strings. -/
def replaceAll (pat repl s : List Char) : List Char :=
  replaceAllAux pat repl s.length s

/-- The chain of str.replace calls of normalize_team_name, in source order:
the first listed Python replace is the innermost application here. -/
def removeAffixes (name : List Char) : List Char :=
  replaceAll " CB ".data [] (replaceAll " KK ".data [] (replaceAll " AX".data []
    (replaceAll " AX Armani Exchange".data " Armani".data
      (replaceAll " Basket".data [] (replaceAll " SAD".data []
        (replaceAll " FOX".data [] (replaceAll " Beko".data []
          (replaceAll " Basketball".data []
            (replaceAll " Basket".data [] name)))))))))

/-- normalize_team_name from the source: the fixed chain of replace calls
(applied in source order, innermost first), then strip, then lowercase. -/
def normalize_team_name (name : List Char) : List Char :=
  (pyStrip (removeAffixes name)).map lowerChar

/-- Detector of a run of two or more consecutive whitespace characters. -/
def hasWsRun : List Char → Bool
  | c :: d :: r => (isSpaceC c && isSpaceC d) || hasWsRun (d :: r)
  | _ => false

/-- One step of the longest-common-subsequence dynamic program: extend the
new row along the second string.  Arguments: remaining characters of the
second string, remaining entries of the previous row, the diagonal entry,
and the entry to the left in the new row. -/
def lcsRowGo (ca : Char) : List Char → List Nat → Nat → Nat → List Nat
  | c :: cs, pj :: ps, diag, left =>
    (if c = ca then diag + 1 else max left pj) ::
      lcsRowGo ca cs ps pj (if c = ca then diag + 1 else max left pj)
  | _, _, _, _ => []

/-- Next row of the longest-common-subsequence table. -/
def lcsNextRow (ca : Char) (cb : List Char) (prev : List Nat) : List Nat :=
  match prev with
  | p0 :: ps => 0 :: lcsRowGo ca cb ps p0 0
  | [] => []

/-- Length of a longest common subsequence of two character lists, computed
row by row so that the kernel can evaluate it on concrete inputs. -/
def lcsLen (a b : List Char) : Nat :=
  (a.foldl (fun row ca => lcsNextRow ca b row)
    (List.replicate (b.length + 1) 0)).getLast?.getD 0

/-- Modelled from the spec: the whole-string similarity score of the external
fuzzywuzzy library (fuzz dot ratio), which the source imports.  It is the
Levenshtein ratio with substitutions counted twice, equivalently
2 * LCS(a,b) / (len(a) + len(b)), scaled to 0..100 and rounded to nearest. -/
def fuzzScore (a b : List Char) : Nat :=
  if a.length + b.length = 0 then 100
  else (400 * lcsLen a b + (a.length + b.length)) / (2 * (a.length + b.length))

/-- All contiguous windows of length k of a list (empty when the list is
shorter than k). -/
def windowsGo (k : Nat) : List Char → List (List Char)
  | [] => []
  | c :: cs => if cs.length + 1 < k then [] else (c :: cs).take k :: windowsGo k cs

/-- Modelled from the spec: the substring / partial-overlap similarity score
of the external fuzzywuzzy library (fuzz dot partial underscore ratio): the
best whole-string score of the shorter string against every equally long
contiguous window of the longer string. -/
def fuzzOverlapScore (a b : List Char) : Nat :=
  if (if a.length ≤ b.length then a else b).length = 0 then 100
  else (windowsGo (if a.length ≤ b.length then a else b).length
      (if a.length ≤ b.length then b else a)).foldl
    (fun m w => max m (fuzzScore (if a.length ≤ b.length then a else b) w)) 0

/-- fuzzy_match_teams from the source: exact equality after normalization
short-circuits, otherwise whole-string score against the threshold (the
source default is 80, passed explicitly here) or partial-overlap score
against 85. -/
def fuzzy_match_teams (name1 name2 : List Char) (threshold : Nat) : Bool :=
  if normalize_team_name name1 = normalize_team_name name2 then true
  else
    decide (threshold ≤ fuzzScore (normalize_team_name name1) (normalize_team_name name2)) ||
      decide (85 ≤ fuzzOverlapScore (normalize_team_name name1) (normalize_team_name name2))

/-- A calendar date (what the datetime dot date() projection of the source
compares). -/
structure Date where
  year : Nat
  month : Nat
  day : Nat
deriving DecidableEq, Repr

/-- The Game dataclass of the source: one entry parsed from a schedule line.
The source also carries a line_number field defaulting to 0 that no function
reads; it is omitted. -/
structure Game where
  original_line : List Char
  date : Date
  opponent : List Char
  is_home : Bool
  league : List Char
  existing_time : Option (List Char)
deriving DecidableEq, Repr

/-- The OfficialGame dataclass of the source: one candidate record from the
externally fetched pool.  local_time is the kickoff as a civil date plus
minutes after midnight (datetime dot combine of the source). -/
structure OfficialGame where
  date : Date
  opponent : List Char
  is_home : Bool
  local_time : Date × Nat
  league : List Char
deriving DecidableEq, Repr

/-- The similarity score match_game computes for a candidate: the
whole-string score of the two normalized opponent names. -/
def entryScore (g : Game) (o : OfficialGame) : Nat :=
  fuzzScore (normalize_team_name g.opponent) (normalize_team_name o.opponent)

/-- A candidate that survives the filters of match_game: equal date, league
and home flag, and fuzzy-qualifying opponent names. -/
def isSurvivor (g : Game) (o : OfficialGame) : Bool :=
  decide (g.date = o.date ∧ g.league = o.league ∧ g.is_home = o.is_home) &&
    fuzzy_match_teams g.opponent o.opponent 80

/-- Loop body of match_game: the three continue-filters of the source, then
the fuzzy qualification, then the best-so-far update under strict
improvement of the score. -/
def matchStep (g : Game) (acc : Option OfficialGame × Nat) (o : OfficialGame) :
    Option OfficialGame × Nat :=
  if g.date = o.date ∧ g.league = o.league ∧ g.is_home = o.is_home then
    if fuzzy_match_teams g.opponent o.opponent 80 = true then
      if acc.2 < entryScore g o then (some o, entryScore g o) else acc
    else acc
  else acc

/-- match_game from the source: fold the loop body over the pool starting
from no match and score 0, and return the best candidate only when the best
score reaches 75. -/
def match_game (g : Game) (pool : List OfficialGame) : Option OfficialGame :=
  if 75 ≤ (pool.foldl (matchStep g) (none, 0)).2
  then (pool.foldl (matchStep g) (none, 0)).1 else none

/-- Concrete entry for the threshold-boundary scenario. -/
def c1exEntry : Game :=
  ⟨"x".data, ⟨2025, 10, 1⟩, "abcdef".data, true, "EuroLeague".data, none⟩

/-- Concrete candidate whose similarity score against c1exEntry is
exactly 75. -/
def c1exCand75 : OfficialGame :=
  ⟨⟨2025, 10, 1⟩, "abcdefghij".data, true, (⟨2025, 10, 1⟩, 1245), "EuroLeague".data⟩

/-- Concrete entry for the lower side of the threshold boundary. -/
def c1exEntryB : Game :=
  ⟨"x".data, ⟨2025, 10, 1⟩, "abcdefg".data, true, "EuroLeague".data, none⟩

/-- Concrete candidate whose similarity score against c1exEntryB is
exactly 74. -/
def c1exCand74 : OfficialGame :=
  ⟨⟨2025, 10, 1⟩, "abcdefghijkl".data, true, (⟨2025, 10, 1⟩, 1245), "EuroLeague".data⟩

/-- Case-insensitive letter tests for the IGNORECASE parts of the time
regex of the source. -/
def isLetterE (c : Char) : Bool := c = 'E' || c = 'e'

def isLetterT (c : Char) : Bool := c = 'T' || c = 't'

def isLetterA (c : Char) : Bool := c = 'A' || c = 'a'

def isLetterP (c : Char) : Bool := c = 'P' || c = 'p'

def isLetterM (c : Char) : Bool := c = 'M' || c = 'm'

/-- One or two digits followed by a colon (the regex piece d 1-2 then colon,
with the greedy two-digit attempt first); returns the rest after the
colon. -/
def eatHColon : List Char → Option (List Char)
  | a :: b :: c :: r =>
    if isDigitC a && isDigitC b && c = ':' then some r
    else if isDigitC a && b = ':' then some (c :: r)
    else none
  | [a, b] => if isDigitC a && b = ':' then some [] else none
  | _ => none

/-- Exactly two digits (the minutes). -/
def eatMM : List Char → Option (List Char)
  | a :: b :: r => if isDigitC a && isDigitC b then some r else none
  | _ => none

/-- The letters ET, case-insensitively. -/
def eatET : List Char → Option (List Char)
  | a :: b :: r => if isLetterE a && isLetterT b then some r else none
  | _ => none

/-- Optional AM or PM (case-insensitive), then optional whitespace, then ET.
When the next two letters do not form AM or PM the optional group is empty
and ET must match directly, which agrees with the backtracking behaviour of
the regex engine here because a letter that starts AM or PM can never also
start ET. -/
def eatAmPmET : List Char → Option (List Char)
  | a :: b :: r =>
    if (isLetterA a || isLetterP a) && isLetterM b then eatET (r.dropWhile isSpaceC)
    else eatET (a :: b :: r)
  | s => eatET s

/-- Match of the time-removal regex of update_line_with_time at the head of
the list: a comma, optional whitespace, one or two digits, a colon, two
digits, optional whitespace, optional AM or PM, optional whitespace, ET
(case-insensitive).  Returns the rest after the match. -/
def matchTimePat : List Char → Option (List Char)
  | c :: rest =>
    if c = ',' then
      match eatHColon (rest.dropWhile isSpaceC) with
      | none => none
      | some r1 =>
        match eatMM r1 with
        | none => none
        | some r2 => eatAmPmET (r2.dropWhile isSpaceC)
    else none
  | [] => none

/-- One pass of re.sub with the time-removal pattern: scan left to right,
delete every match, and continue scanning right after each deleted match.
Structural recursion on fuel (the length of the string, which suffices since
every step consumes at least one character). -/
def stripTimesAux : Nat → List Char → List Char
  | 0, s => s
  | _ + 1, [] => []
  | fuel + 1, c :: cs =>
    match matchTimePat (c :: cs) with
    | some r => stripTimesAux fuel r
    | none => c :: stripTimesAux fuel cs

/-- The re.sub call of update_line_with_time: remove every time suffix. -/
def stripTimes (s : List Char) : List Char :=
  stripTimesAux s.length s

/-- Python line.rstrip().endswith(at-sign). -/
def rstripEndsAt (l : List Char) : Bool :=
  match l.reverse.dropWhile isSpaceC with
  | c :: _ => c = '@'
  | [] => false

/-- Everything before the last occurrence of t (Python rsplit(t, 1)[0],
meaningful when t occurs). -/
def beforeLast (t : Char) (s : List Char) : List Char :=
  ((s.reverse.dropWhile (fun c => c != t)).drop 1).reverse

/-- Everything after the last occurrence of t (Python rsplit(t, 1)[1]). -/
def afterLast (t : Char) (s : List Char) : List Char :=
  (s.reverse.takeWhile (fun c => c != t)).reverse

/-- update_line_with_time from the source: strip any existing time, then
insert the new time before the last at-sign (when the line has one and does
not end with a bare at-sign), else append it at the end. -/
def update_line_with_time (original_line new_time : List Char) : List Char :=
  if '@' ∈ stripTimes original_line ∧ rstripEndsAt (stripTimes original_line) = false then
    beforeLast '@' (stripTimes original_line) ++ (',' :: ' ' :: new_time) ++
      (' ' :: '@' :: afterLast '@' (stripTimes original_line))
  else stripTimes original_line ++ (',' :: ' ' :: new_time)

/-- ASCII lowercase-letter test. -/
def isLowerC (c : Char) : Bool :=
  97 ≤ c.toNat && c.toNat ≤ 122

/-- Numeric value of an ASCII digit character. -/
def digitVal (c : Char) : Nat :=
  c.toNat - 48

/-- Numeric value of a list of ASCII digit characters. -/
def natOfDigits (l : List Char) : Nat :=
  l.foldl (fun acc c => acc * 10 + digitVal c) 0

/-- One or two digits followed by a comma (the piece d 1-2 then comma of the
date-search regex, greedy two-digit attempt first); returns the digit token
and the rest after the comma. -/
def dayComma : List Char → Option (List Char × List Char)
  | a :: b :: c :: r =>
    if isDigitC a && isDigitC b && c = ',' then some ([a, b], r)
    else if isDigitC a && b = ',' then some ([a], c :: r)
    else none
  | [a, b] => if isDigitC a && b = ',' then some ([a], []) else none
  | _ => none

/-- Match of the date-search regex of extract_game_info at the head of the
line: an uppercase letter, two lowercase letters, whitespace, one or two
digits, a comma, whitespace, four digits.  Returns the matched substring. -/
def matchDateAt : List Char → Option (List Char)
  | c1 :: c2 :: c3 :: r1 =>
    if isUpperC c1 && isLowerC c2 && isLowerC c3 then
      if r1.takeWhile isSpaceC = [] then none
      else
        match dayComma (r1.dropWhile isSpaceC) with
        | none => none
        | some (dtok, r3) =>
          if r3.takeWhile isSpaceC = [] then none
          else
            match r3.dropWhile isSpaceC with
            | d1 :: d2 :: d3 :: d4 :: _ =>
              if isDigitC d1 && isDigitC d2 && isDigitC d3 && isDigitC d4 then
                some (c1 :: c2 :: c3 :: (r1.takeWhile isSpaceC ++ dtok ++
                  [','] ++ r3.takeWhile isSpaceC ++ [d1, d2, d3, d4]))
              else none
            | _ => none
    else none
  | _ => none

/-- re.search with the date regex: the leftmost match in the line. -/
def searchDate : List Char → Option (List Char)
  | [] => none
  | c :: cs =>
    match matchDateAt (c :: cs) with
    | some m => some m
    | none => searchDate cs

/-- Month number of a three-letter English month abbreviation,
case-insensitively (the strptime directive percent-b). -/
def monthNum (m : List Char) : Option Nat :=
  if m.map lowerChar = "jan".data then some 1
  else if m.map lowerChar = "feb".data then some 2
  else if m.map lowerChar = "mar".data then some 3
  else if m.map lowerChar = "apr".data then some 4
  else if m.map lowerChar = "may".data then some 5
  else if m.map lowerChar = "jun".data then some 6
  else if m.map lowerChar = "jul".data then some 7
  else if m.map lowerChar = "aug".data then some 8
  else if m.map lowerChar = "sep".data then some 9
  else if m.map lowerChar = "oct".data then some 10
  else if m.map lowerChar = "nov".data then some 11
  else if m.map lowerChar = "dec".data then some 12
  else none

/-- Days in a month, with the Gregorian leap rule (the range check the
datetime constructor of the source performs). -/
def daysInMonth (y m : Nat) : Nat :=
  if m = 2 then
    (if y % 4 = 0 ∧ (y % 100 ≠ 0 ∨ y % 400 = 0) then 29 else 28)
  else if m = 4 ∨ m = 6 ∨ m = 9 ∨ m = 11 then 30 else 31

/-- A date the datetime constructor accepts (year at least 1, day within
the month). -/
def mkValidDate (y m d : Nat) : Option Date :=
  if 1 ≤ y ∧ 1 ≤ d ∧ d ≤ daysInMonth y m then some ⟨y, m, d⟩ else none

/-- A one-or-two-digit number token up to maxv as the strptime directives
percent-d and percent-m match it (two-digit alternatives first, then the
single nonzero digit), continued by k on the rest, with regex
backtracking from the two-digit to the one-digit alternative. -/
def parseNum2or1 (maxv : Nat) (k : Nat → List Char → Option Date) :
    List Char → Option Date
  | a :: b :: r =>
    (if isDigitC a && isDigitC b &&
        decide (1 ≤ 10 * digitVal a + digitVal b ∧ 10 * digitVal a + digitVal b ≤ maxv)
      then k (10 * digitVal a + digitVal b) r else none) <|>
    (if isDigitC a && decide (1 ≤ digitVal a) then k (digitVal a) (b :: r) else none)
  | [a] => if isDigitC a && decide (1 ≤ digitVal a) then k (digitVal a) [] else none
  | [] => none

/-- strptime with format percent-b space percent-d comma space percent-Y
(whitespace in the format matching runs of whitespace), requiring the whole
string to be consumed, then the datetime range check. -/
def parseFmtMDY (s : List Char) : Option Date :=
  match s with
  | a :: b :: c :: r1 =>
    match monthNum [a, b, c] with
    | none => none
    | some m =>
      if r1.takeWhile isSpaceC = [] then none
      else
        parseNum2or1 31 (fun day r2 =>
          match r2 with
          | ',' :: r3 =>
            if r3.takeWhile isSpaceC = [] then none
            else
              match r3.dropWhile isSpaceC with
              | [y1, y2, y3, y4] =>
                if isDigitC y1 && isDigitC y2 && isDigitC y3 && isDigitC y4 then
                  mkValidDate (natOfDigits [y1, y2, y3, y4]) m day
                else none
              | _ => none
          | _ => none) (r1.dropWhile isSpaceC)
  | _ => none

/-- strptime with format percent-Y dash percent-m dash percent-d. -/
def parseFmtYMD (s : List Char) : Option Date :=
  match s with
  | y1 :: y2 :: y3 :: y4 :: '-' :: r =>
    if isDigitC y1 && isDigitC y2 && isDigitC y3 && isDigitC y4 then
      parseNum2or1 12 (fun m r2 =>
        match r2 with
        | '-' :: r3 =>
          parseNum2or1 31 (fun d r4 =>
            match r4 with
            | [] => mkValidDate (natOfDigits [y1, y2, y3, y4]) m d
            | _ => none) r3
        | _ => none) r
    else none
  | _ => none

/-- strptime with format percent-d space percent-b space percent-Y. -/
def parseFmtDMY (s : List Char) : Option Date :=
  parseNum2or1 31 (fun d r1 =>
    if r1.takeWhile isSpaceC = [] then none
    else
      match r1.dropWhile isSpaceC with
      | a :: b :: c :: r2 =>
        match monthNum [a, b, c] with
        | none => none
        | some m =>
          if r2.takeWhile isSpaceC = [] then none
          else
            match r2.dropWhile isSpaceC with
            | [u1, u2, u3, u4] =>
              if isDigitC u1 && isDigitC u2 && isDigitC u3 && isDigitC u4 then
                mkValidDate (natOfDigits [u1, u2, u3, u4]) m d
              else none
            | _ => none
      | _ => none) s

/-- parse_date from the source: strip, then try the three formats in
order. -/
def parse_date (s : List Char) : Option Date :=
  parseFmtMDY (pyStrip s) <|> parseFmtYMD (pyStrip s) <|> parseFmtDMY (pyStrip s)

/-- The lazily matched opponent group: at least one character other than an
at-sign, extended only until the first at-sign, comma or end of line. -/
def lazyGroup : List Char → Option (List Char)
  | [] => none
  | c :: cs =>
    if c = '@' then none
    else some (c :: cs.takeWhile (fun d => d != '@' && d != ','))

/-- Backtracking over the greedy whitespace of the opponent regexes: try
consuming k whitespace characters, k from the full run down to one. -/
def wsBacktrack : Nat → List Char → Option (List Char)
  | 0, _ => none
  | k + 1, r =>
    match lazyGroup (r.drop (k + 1)) with
    | some g => some g
    | none => wsBacktrack k r

/-- Match of an opponent regex (marker, whitespace, lazy group, terminator)
at the head of the line; returns the untrimmed group. -/
def markerOppAt (marker s : List Char) : Option (List Char) :=
  if leadsWith marker s then
    wsBacktrack ((s.drop marker.length).takeWhile isSpaceC).length (s.drop marker.length)
  else none

/-- re.search with an opponent regex: leftmost match in the line. -/
def searchMarkerOpp (marker : List Char) : List Char → Option (List Char)
  | [] => none
  | c :: cs =>
    match markerOppAt marker (c :: cs) with
    | some g => some g
    | none => searchMarkerOpp marker cs

/-- Match of the existing-time regex at the head of the line: one or two
digits, colon, two digits, optional whitespace, optional AM or PM, optional
whitespace, ET (case-insensitive).  Returns the matched substring. -/
def timeSearchAt (s : List Char) : Option (List Char) :=
  match eatHColon s with
  | none => none
  | some r1 =>
    match eatMM r1 with
    | none => none
    | some r2 =>
      match eatAmPmET (r2.dropWhile isSpaceC) with
      | none => none
      | some r3 => some (s.take (s.length - r3.length))

/-- re.search with the existing-time regex: leftmost match. -/
def timeSearch : List Char → Option (List Char)
  | [] => none
  | c :: cs =>
    match timeSearchAt (c :: cs) with
    | some m => some m
    | none => timeSearch cs

/-- Body of extract_game_info on the already stripped line. -/
def extractStripped (line league : List Char) : Option Game :=
  if line = [] || leadsWith "#".data line || hasSub "(W ".data line ||
      hasSub "(L ".data line then none
  else
    match searchDate line with
    | none => none
    | some dstr =>
      match parse_date dstr with
      | none => none
      | some date =>
        if hasSub "vs ".data line || hasSub " vs ".data line then
          match searchMarkerOpp "vs".data line with
          | none => none
          | some opp =>
            some ⟨line, date, pyStrip opp, true, league, timeSearch line⟩
        else if hasSub "@ ".data line && !(leadsWith "@".data (pyStrip line)) then
          match searchMarkerOpp "@".data line with
          | none => none
          | some opp =>
            some ⟨line, date, pyStrip opp, false, league, timeSearch line⟩
        else none

/-- extract_game_info from the source: strip the line, skip blank, comment
and completed-game lines, locate the date, the home or away marker and the
opponent, and build the Game record. -/
def extract_game_info (line0 league : List Char) : Option Game :=
  extractStripped (pyStrip line0) league

/-- Concrete line for the both-markers scenarios: it contains the home
marker and a venue at-sign. -/
def c2exLine : List Char :=
  "Oct 1, 2025 - vs X @ Y".data

/-- The game record extract_game_info produces for c2exLine. -/
def c2exGame : Game :=
  ⟨c2exLine, ⟨2025, 10, 1⟩, "X".data, true, "EuroLeague".data, none⟩

/-- Sortable key of a calendar date. -/
def dateKey (d : Date) : Nat :=
  d.year * 10000 + d.month * 100 + d.day

/-- Modelled from the spec: the UTC offset in minutes that the external
zoneinfo database assigns to the three zones the team configuration uses,
with the daylight-saving windows of the 2025 season in scope (European
zones: March 30 to October 26; America/New_York: March 9 to
November 2). -/
def tzOffsetMin (tz : List Char) (d : Date) : Int :=
  if tz = "Europe/Paris".data ∨ tz = "Europe/Madrid".data then
    if 20250330 ≤ dateKey d ∧ dateKey d < 20251026 then 120 else 60
  else if tz = "America/New_York".data then
    if 20250309 ≤ dateKey d ∧ dateKey d < 20251102 then -240 else -300
  else 0

/-- convert_to_et from the source: attach the source timezone to the local
kickoff and convert to Eastern Time.  The result is the Eastern wall-clock
time as minutes after midnight — the formatter reads only the time of day,
so a day shift is irrelevant.  The timezone arithmetic itself is modelled
from the spec via tzOffsetMin because zoneinfo is an external database. -/
def convert_to_et (local_time : Date × Nat) (local_tz : List Char) : Nat :=
  (((((local_time.2 : Int) - tzOffsetMin local_tz local_time.1 +
    tzOffsetMin "America/New_York".data local_time.1) % 1440) + 1440) % 1440).toNat

/-- The character of a decimal digit. -/
def digitCharC : Nat → Char
  | 0 => '0' | 1 => '1' | 2 => '2' | 3 => '3' | 4 => '4'
  | 5 => '5' | 6 => '6' | 7 => '7' | 8 => '8' | _ => '9'

/-- Two-digit zero-padded decimal rendering (strftime field width). -/
def pad2 (n : Nat) : List Char :=
  if n < 10 then ['0', digitCharC n] else [digitCharC (n / 10), digitCharC (n % 10)]

/-- format_time_et from the source: strftime with percent-I colon percent-M
space percent-p, then the literal ET, then removal of one leading zero from
the hour. -/
def format_time_et (m : Nat) : List Char :=
  match pad2 (if (m / 60) % 12 = 0 then 12 else (m / 60) % 12) ++ ':' :: pad2 (m % 60) ++
      ' ' :: ((if m / 60 < 12 then "AM".data else "PM".data) ++ " ET".data) with
  | '0' :: rest => rest
  | t => t

/-- Python str.endswith. -/
def trailsWith (pat s : List Char) : Bool :=
  leadsWith pat.reverse s.reverse

/-- The input line of end-to-end scenario 1. -/
def c5exLine : List Char :=
  "Nov 13, 2025 - vs Valencia Basket @ Halle Georges Carpentier Arena".data

/-- The candidate record of end-to-end scenario 1 (kickoff 20:45 local). -/
def c5exCand : OfficialGame :=
  ⟨⟨2025, 11, 13⟩, "Valencia BC".data, true, (⟨2025, 11, 13⟩, 1245), "EuroLeague".data⟩

/-- The game record the parser produces for c5exLine. -/
def c5exGame : Game :=
  ⟨c5exLine, ⟨2025, 11, 13⟩, "Valencia Basket".data, true, "EuroLeague".data, none⟩

/-- The per-team configuration fields the line loop of
process_schedule_file reads. -/
structure TeamConfig where
  team_name : List Char
  timezone : List Char
  leagues : List (List Char)

/-- The league-header detection of the driver: the first configured league
whose upper-cased name occurs in the upper-cased line becomes the carried
league; otherwise the carried league is unchanged. -/
def updateLeague (cfg : TeamConfig) (lg : Option (List Char)) (l : List Char) :
    Option (List Char) :=
  match cfg.leagues.find? (fun L => hasSub (L.map upperChar) (l.map upperChar)) with
  | some L => some L
  | none => lg

/-- Whether some configured league name occurs (case-insensitively) in the
line. -/
def hasLeagueHeader (cfg : TeamConfig) (l : List Char) : Bool :=
  cfg.leagues.any (fun L => hasSub (L.map upperChar) (l.map upperChar))

/-- One line of the driver loop after the league update: the skip test of
the source (blank, team metadata with Rank: or Source:, completed game),
then parse, reconcile, convert and rewrite.  Returns the output line, the
contribution to the updated counter, the contribution to the skipped
counter, and the unmatched entries recorded for this line. -/
def stepLine (cfg : TeamConfig) (pool : List OfficialGame) (lg : Option (List Char))
    (l : List Char) : List Char × Nat × Nat × List Game :=
  if pyStrip l = [] ∨
      (hasSub cfg.team_name l = true ∧
        (hasSub "Rank:".data l = true ∨ hasSub "Source:".data l = true)) ∨
      hasSub "(W ".data l = true ∨ hasSub "(L ".data l = true then
    (l, 0, 0, [])
  else
    match lg with
    | none => (l, 0, 0, [])
    | some league =>
      match extract_game_info l league with
      | none => (l, 0, 0, [])
      | some g =>
        match match_game g pool with
        | some m =>
          (update_line_with_time l (format_time_et (convert_to_et m.local_time cfg.timezone)),
            1, 0, [])
        | none => (l, 0, 1, [g])

/-- The line loop of process_schedule_file: thread the carried league
through the lines, emit one output line per input line, and accumulate the
updated and skipped counters and the unmatched entries. -/
def processLines (cfg : TeamConfig) (pool : List OfficialGame) :
    Option (List Char) → List (List Char) → List (List Char) × Nat × Nat × List Game
  | _, [] => ([], 0, 0, [])
  | lg, l :: ls =>
    ((stepLine cfg pool (updateLeague cfg lg l) l).1 ::
        (processLines cfg pool (updateLeague cfg lg l) ls).1,
      (stepLine cfg pool (updateLeague cfg lg l) l).2.1 +
        (processLines cfg pool (updateLeague cfg lg l) ls).2.1,
      (stepLine cfg pool (updateLeague cfg lg l) l).2.2.1 +
        (processLines cfg pool (updateLeague cfg lg l) ls).2.2.1,
      (stepLine cfg pool (updateLeague cfg lg l) l).2.2.2 ++
        (processLines cfg pool (updateLeague cfg lg l) ls).2.2.2)

/-- The skip categories of the non-interference claim: blank line, comment,
completed-game line, team metadata line. -/
def isSkipCategory (cfg : TeamConfig) (l : List Char) : Bool :=
  decide (pyStrip l = []) || leadsWith "#".data (pyStrip l) ||
    hasSub "(W ".data l || hasSub "(L ".data l ||
    (hasSub cfg.team_name l && (hasSub "Rank:".data l || hasSub "Source:".data l))

/-- A concrete configuration (the Valencia entry of TEAM_CONFIG). -/
def c10exCfg : TeamConfig :=
  ⟨"Valencia Basket".data, "Europe/Madrid".data,
    ["EuroLeague".data, "Liga ACB".data]⟩

-- ===== END OF DEFINITIONS (further definitions are inserted above) =====

/-! Basic character lemmas. -/

theorem charEq_of_toNat {a b : Char} (h : a.toNat = b.toNat) : a = b :=
  Char.ext (UInt32.toNat.inj h)

theorem lowerChar_toNat (c : Char) :
    (lowerChar c).toNat =
      if 65 ≤ c.toNat ∧ c.toNat ≤ 90 then c.toNat + 32 else c.toNat := by
  unfold lowerChar
  by_cases h : 65 ≤ c.toNat ∧ c.toNat ≤ 90
  · rw [if_pos h, if_pos h]
    have hv : (c.toNat + 32).isValidChar := Or.inl (by omega)
    unfold Char.ofNat
    rw [dif_pos hv]
    unfold Char.ofNatAux Char.toNat
    simp [UInt32.toNat]
  · rw [if_neg h, if_neg h]

theorem lowerChar_lowerChar (c : Char) : lowerChar (lowerChar c) = lowerChar c := by
  apply charEq_of_toNat
  by_cases h : 65 ≤ c.toNat ∧ c.toNat ≤ 90
  · have h1 : (lowerChar c).toNat = c.toNat + 32 := by rw [lowerChar_toNat, if_pos h]
    have h2 : ¬(65 ≤ (lowerChar c).toNat ∧ (lowerChar c).toNat ≤ 90) := by omega
    rw [lowerChar_toNat, if_neg h2]
  · have h1 : (lowerChar c).toNat = c.toNat := by rw [lowerChar_toNat, if_neg h]
    have h2 : ¬(65 ≤ (lowerChar c).toNat ∧ (lowerChar c).toNat ≤ 90) := by omega
    rw [lowerChar_toNat, if_neg h2, h1]

theorem lowerChar_ne_of_upper {u : Char} (h1 : 65 ≤ u.toNat) (h2 : u.toNat ≤ 90)
    (c : Char) : lowerChar c ≠ u := by
  intro he
  have h3 := lowerChar_toNat c
  rw [he] at h3
  by_cases h : 65 ≤ c.toNat ∧ c.toNat ≤ 90
  · rw [if_pos h] at h3; omega
  · rw [if_neg h] at h3; omega

theorem isUpperC_lowerChar (c : Char) : isUpperC (lowerChar c) = false := by
  have h3 := lowerChar_toNat c
  rw [Bool.eq_false_iff]
  intro hcon
  rw [isUpperC, Bool.and_eq_true, decide_eq_true_eq, decide_eq_true_eq] at hcon
  by_cases h : 65 ≤ c.toNat ∧ c.toNat ≤ 90
  · rw [if_pos h] at h3; omega
  · rw [if_neg h] at h3; omega

theorem isSpaceC_lowerChar (c : Char) : isSpaceC (lowerChar c) = isSpaceC c := by
  have h3 := lowerChar_toNat c
  rw [Bool.eq_iff_iff]
  simp only [isSpaceC, Bool.or_eq_true, decide_eq_true_eq]
  by_cases h : 65 ≤ c.toNat ∧ c.toNat ≤ 90
  · rw [if_pos h] at h3; rw [h3]; omega
  · rw [if_neg h] at h3; rw [h3]

/-! Lemmas about leadsWith, hasSub and replaceAll. -/

theorem leadsWith_mem {pat s : List Char} (h : leadsWith pat s = true) :
    ∀ c ∈ pat, c ∈ s := by
  induction pat generalizing s with
  | nil => intro c hc; cases hc
  | cons p ps ih =>
    cases s with
    | nil => cases h
    | cons x xs =>
      unfold leadsWith at h
      rw [Bool.and_eq_true] at h
      obtain ⟨h1, h2⟩ := h
      have hpx : p = x := by simpa using h1
      intro c hc
      rcases List.mem_cons.mp hc with hcp | hcps
      · exact List.mem_cons.mpr (Or.inl (hcp.trans hpx))
      · exact List.mem_cons.mpr (Or.inr (ih h2 c hcps))

theorem replaceAllAux_no_occ {pat repl s : List Char} {c0 : Char}
    (hc : c0 ∈ pat) (hs : ∀ d ∈ s, d ≠ c0) (fuel : Nat) :
    replaceAllAux pat repl fuel s = s := by
  induction fuel generalizing s with
  | zero => rfl
  | succ n ih =>
    cases s with
    | nil => rfl
    | cons c cs =>
      unfold replaceAllAux
      have hnp : leadsWith pat (c :: cs) = false := by
        by_contra hcon
        rw [Bool.not_eq_false] at hcon
        exact hs c0 (leadsWith_mem hcon c0 hc) rfl
      rw [hnp]
      simp only [Bool.false_eq_true, if_false]
      congr 1
      exact ih (fun d hd => hs d (List.mem_cons_of_mem c hd))

theorem replaceAll_no_occ {pat repl s : List Char} {c0 : Char}
    (hc : c0 ∈ pat) (hs : ∀ d ∈ s, d ≠ c0) : replaceAll pat repl s = s :=
  replaceAllAux_no_occ hc hs s.length

/-! Lemmas about pyStrip. -/

theorem head_dropWhile_not {p : Char → Bool} {l : List Char} {c : Char}
    (h : (l.dropWhile p).head? = some c) : p c = false := by
  induction l with
  | nil => cases h
  | cons x xs ih =>
    rw [List.dropWhile_cons] at h
    by_cases hx : p x = true
    · rw [if_pos hx] at h; exact ih h
    · rw [if_neg hx] at h
      simp only [List.head?_cons, Option.some.injEq] at h
      rw [← h]
      exact Bool.not_eq_true _ |>.mp hx

theorem dropWhile_eq_self_of_head {p : Char → Bool} {l : List Char}
    (h : ∀ c, l.head? = some c → p c = false) : l.dropWhile p = l := by
  cases l with
  | nil => rfl
  | cons x xs =>
    rw [List.dropWhile_cons, h x rfl]
    simp

theorem pyStrip_head {l : List Char} {c : Char}
    (h : (pyStrip l).head? = some c) : isSpaceC c = false := by
  unfold pyStrip at h
  set d1 := l.dropWhile isSpaceC with hd1
  set m := d1.reverse.dropWhile isSpaceC with hm
  have hsuf : m <:+ d1.reverse := List.dropWhile_suffix _
  have hpre : m.reverse <+: d1 := by
    have := List.reverse_prefix.mpr hsuf
    rwa [List.reverse_reverse] at this
  obtain ⟨t, ht⟩ := hpre
  have hh : d1.head? = some c := by
    rw [← ht, List.head?_append]
    rw [h]
    rfl
  exact head_dropWhile_not hh

theorem pyStrip_last {l : List Char} {c : Char}
    (h : (pyStrip l).getLast? = some c) : isSpaceC c = false := by
  unfold pyStrip at h
  rw [List.getLast?_reverse] at h
  exact head_dropWhile_not h

theorem pyStrip_eq_self {w : List Char}
    (hh : ∀ c, w.head? = some c → isSpaceC c = false)
    (hl : ∀ c, w.getLast? = some c → isSpaceC c = false) : pyStrip w = w := by
  unfold pyStrip
  rw [dropWhile_eq_self_of_head hh]
  rw [dropWhile_eq_self_of_head (fun c hc => hl c (by rwa [List.getLast?_eq_head?_reverse]))]
  exact List.reverse_reverse w

theorem pyStrip_pyStrip (l : List Char) : pyStrip (pyStrip l) = pyStrip l :=
  pyStrip_eq_self (fun _ h => pyStrip_head h) (fun _ h => pyStrip_last h)

theorem getLast?_map (f : Char → Char) (l : List Char) :
    (l.map f).getLast? = Option.map f l.getLast? := by
  rw [List.getLast?_eq_head?_reverse, List.getLast?_eq_head?_reverse,
      ← List.map_reverse, List.head?_map]

/-! The normalizer is a fixed point on strings that are already stripped and
lower-cased; this yields idempotence. -/

theorem pyStrip_lower_strip (z : List Char) :
    pyStrip ((pyStrip z).map lowerChar) = (pyStrip z).map lowerChar := by
  apply pyStrip_eq_self
  · intro c hc
    rw [List.head?_map] at hc
    cases hh : (pyStrip z).head? with
    | none => rw [hh] at hc; cases hc
    | some d =>
      rw [hh, show Option.map lowerChar (some d) = some (lowerChar d) from rfl] at hc
      injection hc with hc2
      rw [← hc2, isSpaceC_lowerChar]
      exact pyStrip_head hh
  · intro c hc
    rw [getLast?_map] at hc
    cases hh : (pyStrip z).getLast? with
    | none => rw [hh] at hc; cases hc
    | some d =>
      rw [hh, show Option.map lowerChar (some d) = some (lowerChar d) from rfl] at hc
      injection hc with hc2
      rw [← hc2, isSpaceC_lowerChar]
      exact pyStrip_last hh

theorem replaceAll_lower_fix {pat repl : List Char} {u : Char}
    (h1 : 65 ≤ u.toNat) (h2 : u.toNat ≤ 90) (hmem : u ∈ pat) (w : List Char) :
    replaceAll pat repl (w.map lowerChar) = w.map lowerChar := by
  apply replaceAll_no_occ hmem
  intro d hd
  obtain ⟨e, _, he⟩ := List.mem_map.mp hd
  rw [← he]
  exact lowerChar_ne_of_upper h1 h2 e

theorem normalize_fix (z : List Char) :
    normalize_team_name ((pyStrip z).map lowerChar) = (pyStrip z).map lowerChar := by
  unfold normalize_team_name removeAffixes
  rw [replaceAll_lower_fix (u := 'B') (by decide) (by decide) (by decide),
      replaceAll_lower_fix (u := 'B') (by decide) (by decide) (by decide),
      replaceAll_lower_fix (u := 'B') (by decide) (by decide) (by decide),
      replaceAll_lower_fix (u := 'F') (by decide) (by decide) (by decide),
      replaceAll_lower_fix (u := 'S') (by decide) (by decide) (by decide),
      replaceAll_lower_fix (u := 'B') (by decide) (by decide) (by decide),
      replaceAll_lower_fix (u := 'X') (by decide) (by decide) (by decide),
      replaceAll_lower_fix (u := 'X') (by decide) (by decide) (by decide),
      replaceAll_lower_fix (u := 'K') (by decide) (by decide) (by decide),
      replaceAll_lower_fix (u := 'C') (by decide) (by decide) (by decide)]
  rw [pyStrip_lower_strip]
  rw [List.map_map]
  exact List.map_congr_left (fun a _ => lowerChar_lowerChar a)

/-- C7: the name normalizer is idempotent — normalizing an already
normalized team name returns it unchanged, for every input string. -/
theorem claim_C7_normalizer_idempotent (x : List Char) :
    normalize_team_name (normalize_team_name x) = normalize_team_name x :=
  normalize_fix (removeAffixes x)

/-- C8 (amended): the output of the name normalizer is fully lowercased (it
contains no ASCII uppercase letter) and carries no leading or trailing
whitespace; internal whitespace is, however, not collapsed. -/
theorem claim_C8_normalizer_lowercase_stripped (s : List Char) :
    (∀ c ∈ normalize_team_name s, isUpperC c = false) ∧
      pyStrip (normalize_team_name s) = normalize_team_name s := by
  constructor
  · intro c hc
    obtain ⟨e, _, he⟩ := List.mem_map.mp hc
    rw [← he]
    exact isUpperC_lowerChar e
  · exact pyStrip_lower_strip (removeAffixes s)

/-- C8 witness: the amended statement evaluated at a concrete input. -/
theorem claim_C8_normalizer_lowercase_stripped_witness :
    isUpperC 'a' = false ∧ pyStrip (normalize_team_name "  Valencia Basket ".data) =
      normalize_team_name "  Valencia Basket ".data := by
  constructor
  · exact (claim_C8_normalizer_lowercase_stripped "a".data).1 'a' (by decide)
  · exact (claim_C8_normalizer_lowercase_stripped "  Valencia Basket ".data).2

/-- C8 counterexample: the claim that whitespace is collapsed fails — the
normalizer keeps the internal double space of this input, so its output
contains a run of two consecutive whitespace characters. -/
theorem claim_C8_counterexample :
    normalize_team_name "Real  Madrid".data = "real  madrid".data ∧
      hasWsRun (normalize_team_name "Real  Madrid".data) = true := by
  constructor <;> decide

/-- C6: the fuzzy matcher at the source-default threshold 80 accepts a pair
of team names exactly when the normalized names are equal, or the
whole-string score is at least 80, or the partial-overlap score is at
least 85. -/
theorem claim_C6_fuzzy_match_decision (a b : List Char) :
    fuzzy_match_teams a b 80 = true ↔
      (normalize_team_name a = normalize_team_name b ∨
        80 ≤ fuzzScore (normalize_team_name a) (normalize_team_name b) ∨
        85 ≤ fuzzOverlapScore (normalize_team_name a) (normalize_team_name b)) := by
  unfold fuzzy_match_teams
  by_cases h : normalize_team_name a = normalize_team_name b
  · simp [h]
  · rw [if_neg h]
    simp [h]

/-- C6 witness: the decision rule applied at concrete names — the names
Valencia Basket and Valencia BC are accepted through the score branch. -/
theorem claim_C6_fuzzy_match_decision_witness :
    normalize_team_name "Valencia Basket".data = normalize_team_name "Valencia BC".data ∨
      80 ≤ fuzzScore (normalize_team_name "Valencia Basket".data)
        (normalize_team_name "Valencia BC".data) ∨
      85 ≤ fuzzOverlapScore (normalize_team_name "Valencia Basket".data)
        (normalize_team_name "Valencia BC".data) :=
  (claim_C6_fuzzy_match_decision "Valencia Basket".data "Valencia BC".data).mp (by decide)

/-! Lemmas about the match_game fold. -/

theorem matchStep_eq (g : Game) (acc : Option OfficialGame × Nat) (o : OfficialGame) :
    matchStep g acc o =
      if isSurvivor g o = true ∧ acc.2 < entryScore g o
      then (some o, entryScore g o) else acc := by
  unfold matchStep isSurvivor
  by_cases h1 : g.date = o.date ∧ g.league = o.league ∧ g.is_home = o.is_home
  · by_cases h2 : fuzzy_match_teams g.opponent o.opponent 80 = true
    · by_cases h3 : acc.2 < entryScore g o <;> simp [h1, h2, h3]
    · simp [h1, h2]
  · simp [h1]

theorem matchStep_cases (g : Game) (acc : Option OfficialGame × Nat) (o : OfficialGame) :
    matchStep g acc o = acc ∨
      (matchStep g acc o = (some o, entryScore g o) ∧ isSurvivor g o = true ∧
        acc.2 < entryScore g o) := by
  rw [matchStep_eq]
  by_cases h : isSurvivor g o = true ∧ acc.2 < entryScore g o
  · exact Or.inr ⟨if_pos h, h.1, h.2⟩
  · exact Or.inl (if_neg h)

theorem matchFold_snd_mono (g : Game) (pool : List OfficialGame) :
    ∀ acc, acc.2 ≤ (pool.foldl (matchStep g) acc).2 := by
  induction pool with
  | nil => intro acc; exact Nat.le_refl _
  | cons o rest ih =>
    intro acc
    rw [List.foldl_cons]
    rcases matchStep_cases g acc o with h | ⟨h, _, hlt⟩
    · rw [h]; exact ih acc
    · rw [h]
      have hx := ih (some o, entryScore g o)
      simp only [] at hx
      omega

theorem matchFold_some_stays (g : Game) (pool : List OfficialGame) :
    ∀ acc x, acc.1 = some x → ∃ y, (pool.foldl (matchStep g) acc).1 = some y := by
  induction pool with
  | nil => intro acc x hx; exact ⟨x, hx⟩
  | cons o rest ih =>
    intro acc x hx
    rw [List.foldl_cons]
    rcases matchStep_cases g acc o with h | ⟨h, _, _⟩
    · rw [h]; exact ih acc x hx
    · rw [h]; exact ih (some o, entryScore g o) o rfl

theorem matchFold_none_eq (g : Game) (pool : List OfficialGame) :
    ∀ acc, (pool.foldl (matchStep g) acc).1 = none →
      pool.foldl (matchStep g) acc = acc := by
  induction pool with
  | nil => intro acc _; rfl
  | cons o rest ih =>
    intro acc hn
    rw [List.foldl_cons] at hn ⊢
    rcases matchStep_cases g acc o with h | ⟨h, _, _⟩
    · rw [h] at hn ⊢; exact ih acc hn
    · rw [h] at hn
      obtain ⟨y, hy⟩ := matchFold_some_stays g rest (some o, entryScore g o) o rfl
      rw [hn] at hy
      cases hy

theorem matchFold_bound (g : Game) (pool : List OfficialGame) :
    ∀ acc o, o ∈ pool → isSurvivor g o = true →
      entryScore g o ≤ (pool.foldl (matchStep g) acc).2 := by
  induction pool with
  | nil => intro acc o ho; cases ho
  | cons h rest ih =>
    intro acc o ho hs
    rw [List.foldl_cons]
    rcases List.mem_cons.mp ho with he | hm
    · subst he
      have hstep : entryScore g o ≤ (matchStep g acc o).2 := by
        rw [matchStep_eq]
        by_cases hc : isSurvivor g o = true ∧ acc.2 < entryScore g o
        · rw [if_pos hc]
        · rw [if_neg hc]
          rcases Nat.lt_or_ge acc.2 (entryScore g o) with hlt | hge
          · exact absurd ⟨hs, hlt⟩ hc
          · exact hge
      exact Nat.le_trans hstep (matchFold_snd_mono g rest (matchStep g acc o))
    · exact ih _ o hm hs

theorem matchFold_source (g : Game) (pool : List OfficialGame) :
    ∀ acc o s, pool.foldl (matchStep g) acc = (some o, s) →
      acc = (some o, s) ∨
        (o ∈ pool ∧ isSurvivor g o = true ∧ entryScore g o = s) := by
  induction pool with
  | nil => intro acc o s h; exact Or.inl h
  | cons x rest ih =>
    intro acc o s h
    rw [List.foldl_cons] at h
    rcases ih _ o s h with hacc | ⟨hm, hs, he⟩
    · rcases matchStep_cases g acc x with hc | ⟨hc, hsx, _⟩
      · rw [hc] at hacc; exact Or.inl hacc
      · rw [hc] at hacc
        have hox : x = o := by
          have := congrArg Prod.fst hacc
          simpa using this
        have hes : entryScore g x = s := by
          have := congrArg Prod.snd hacc
          simpa using this
        subst hox
        exact Or.inr ⟨List.mem_cons_self x rest, hsx, hes⟩
    · exact Or.inr ⟨List.mem_cons_of_mem x hm, hs, he⟩

theorem matchFold_snd_source (g : Game) (pool : List OfficialGame) :
    ∀ acc, (pool.foldl (matchStep g) acc).2 = acc.2 ∨
      ∃ o ∈ pool, isSurvivor g o = true ∧
        entryScore g o = (pool.foldl (matchStep g) acc).2 := by
  induction pool with
  | nil => intro acc; exact Or.inl rfl
  | cons x rest ih =>
    intro acc
    rw [List.foldl_cons]
    rcases matchStep_cases g acc x with h | ⟨h, hs, _⟩
    · rw [h]
      rcases ih acc with ha | ⟨o, hm, hso, he⟩
      · exact Or.inl ha
      · exact Or.inr ⟨o, List.mem_cons_of_mem x hm, hso, he⟩
    · rw [h]
      rcases ih (some x, entryScore g x) with ha | ⟨o, hm, hso, he⟩
      · refine Or.inr ⟨x, List.mem_cons_self x rest, hs, ?_⟩
        rw [ha]
      · exact Or.inr ⟨o, List.mem_cons_of_mem x hm, hso, he⟩

theorem isSurvivor_iff (g : Game) (o : OfficialGame) :
    isSurvivor g o = true ↔
      (g.date = o.date ∧ g.league = o.league ∧ g.is_home = o.is_home ∧
        fuzzy_match_teams g.opponent o.opponent 80 = true) := by
  unfold isSurvivor
  rw [Bool.and_eq_true, decide_eq_true_eq, and_assoc, and_assoc]

/-- C1: match_game considers only candidates with equal calendar date,
league label and home flag; among the fuzzy-qualifying survivors a returned
match is one of maximal normalized-name score, returned only when that score
reaches 75; conversely no match is returned exactly when every survivor
scores below 75 (so a winning score of exactly 75 is returned and one of 74
is not). -/
theorem claim_C1_match_game_rule (g : Game) (pool : List OfficialGame) :
    (∀ o, match_game g pool = some o →
      o ∈ pool ∧ g.date = o.date ∧ g.league = o.league ∧
        g.is_home = o.is_home ∧ fuzzy_match_teams g.opponent o.opponent 80 = true ∧
        75 ≤ entryScore g o ∧
        ∀ o2 ∈ pool, isSurvivor g o2 = true → entryScore g o2 ≤ entryScore g o) ∧
    (match_game g pool = none ↔
      ∀ o ∈ pool, isSurvivor g o = true → entryScore g o < 75) := by
  constructor
  · intro o hmatch
    unfold match_game at hmatch
    by_cases hge : 75 ≤ (pool.foldl (matchStep g) (none, 0)).2
    · rw [if_pos hge] at hmatch
      have hpair : pool.foldl (matchStep g) (none, 0) =
          (some o, (pool.foldl (matchStep g) (none, 0)).2) := by
        exact Prod.ext hmatch rfl
      rcases matchFold_source g pool (none, 0) o _ hpair with hacc | ⟨hm, hs, he⟩
      · cases congrArg Prod.fst hacc
      · obtain ⟨hd, hl, hh, hf⟩ := (isSurvivor_iff g o).mp hs
        refine ⟨hm, hd, hl, hh, hf, ?_, ?_⟩
        · rw [he]; exact hge
        · intro o2 hm2 hs2
          rw [he]
          exact matchFold_bound g pool (none, 0) o2 hm2 hs2
    · rw [if_neg hge] at hmatch
      cases hmatch
  · constructor
    · intro hnone o hm hs
      unfold match_game at hnone
      by_cases hge : 75 ≤ (pool.foldl (matchStep g) (none, 0)).2
      · rw [if_pos hge] at hnone
        have := matchFold_none_eq g pool (none, 0) hnone
        rw [this] at hge
        omega
      · have hb := matchFold_bound g pool (none, 0) o hm hs
        omega
    · intro hall
      unfold match_game
      have hlt : (pool.foldl (matchStep g) (none, 0)).2 < 75 := by
        rcases matchFold_snd_source g pool (none, 0) with ha | ⟨o, hm, hs, he⟩
        · rw [ha]; omega
        · rw [← he]; exact hall o hm hs
      rw [if_neg (by omega)]

/-- C1 witness: the threshold boundary exercised — a survivor scoring
exactly 75 is returned as the match, one scoring exactly 74 yields no
match. -/
theorem claim_C1_match_game_rule_witness :
    (match_game c1exEntry [c1exCand75] = some c1exCand75 ∧
      75 ≤ entryScore c1exEntry c1exCand75 ∧ entryScore c1exEntry c1exCand75 = 75) ∧
    (entryScore c1exEntryB c1exCand74 = 74 ∧ isSurvivor c1exEntryB c1exCand74 = true ∧
      match_game c1exEntryB [c1exCand74] = none) := by
  refine ⟨⟨by decide, ?_, by decide⟩, by decide, by decide, ?_⟩
  · exact (((claim_C1_match_game_rule c1exEntry [c1exCand75]).1 c1exCand75
      (by decide)).2.2.2.2.2).1
  · exact (claim_C1_match_game_rule c1exEntryB [c1exCand74]).2.mpr (by decide)

/-! Lemmas about the time-removal pattern and stripTimes. -/

theorem eatHColon_colon {w r : List Char} (h : eatHColon w = some r) : ':' ∈ w := by
  rcases w with _ | ⟨a, _ | ⟨b, _ | ⟨c3, rr⟩⟩⟩
  · simp [eatHColon] at h
  · simp [eatHColon] at h
  · simp only [eatHColon] at h
    split at h
    · rename_i hcond
      rw [Bool.and_eq_true, decide_eq_true_eq] at hcond
      rw [hcond.2]
      simp
    · cases h
  · simp only [eatHColon] at h
    split at h
    · rename_i hcond
      rw [Bool.and_eq_true, Bool.and_eq_true, decide_eq_true_eq] at hcond
      rw [hcond.2]
      simp
    · split at h
      · rename_i hcond
        rw [Bool.and_eq_true, decide_eq_true_eq] at hcond
        rw [hcond.2]
        simp
      · cases h

theorem matchTimePat_colon {s r : List Char} (h : matchTimePat s = some r) :
    ':' ∈ s := by
  rcases s with _ | ⟨c, rest⟩
  · cases h
  · simp only [matchTimePat] at h
    split at h
    · rename_i hc
      rcases he : eatHColon (rest.dropWhile isSpaceC) with _ | r1
      · rw [he] at h; cases h
      · have hcolon : ':' ∈ rest.dropWhile isSpaceC := eatHColon_colon he
        have hsub : List.Sublist (rest.dropWhile isSpaceC) rest :=
          List.dropWhile_sublist _
        exact List.mem_cons_of_mem c (List.Sublist.mem hcolon hsub)
    · cases h

theorem stripTimesAux_eq_self {s : List Char} (hc : ':' ∉ s) (fuel : Nat) :
    stripTimesAux fuel s = s := by
  induction fuel generalizing s with
  | zero => rfl
  | succ n ih =>
    rcases s with _ | ⟨c, cs⟩
    · rfl
    · have hnone : matchTimePat (c :: cs) = none := by
        rcases hm : matchTimePat (c :: cs) with _ | r
        · rfl
        · exact absurd (matchTimePat_colon hm) hc
      unfold stripTimesAux
      rw [hnone]
      have : ':' ∉ cs := fun hx => hc (List.mem_cons_of_mem c hx)
      rw [ih this]

theorem stripTimes_eq_self {s : List Char} (hc : ':' ∉ s) : stripTimes s = s :=
  stripTimesAux_eq_self hc s.length

theorem eatHColon_head_not_digit {x : Char} {t : List Char}
    (hx : isDigitC x = false) : eatHColon (x :: t) = none := by
  rcases t with _ | ⟨b, _ | ⟨c3, rr⟩⟩
  · rfl
  · simp [eatHColon, hx]
  · simp [eatHColon, hx]

theorem eatHColon_block {w v : List Char} (hcol : ':' ∉ w) (hne : w ≠ []) :
    eatHColon (w ++ ',' :: v) = none := by
  rcases w with _ | ⟨x, _ | ⟨y, _ | ⟨z, tt⟩⟩⟩
  · exact absurd rfl hne
  · rcases v with _ | ⟨v0, vs⟩
    · simp only [List.cons_append, List.nil_append, eatHColon]
      have : (',' : Char) = ':' ↔ False := by simp
      simp [this]
    · simp only [List.cons_append, List.nil_append, eatHColon]
      have h1 : isDigitC ',' = false := by decide
      have h2 : ((',' : Char) = ':') = False := by simp
      simp [h1, h2]
  · have hy : (y = ':') = False := by
      simp only [eq_iff_iff, iff_false]
      intro he
      exact hcol (by rw [he]; simp)
    simp only [List.cons_append, List.nil_append, eatHColon]
    have h2 : ((',' : Char) = ':') = False := by simp
    simp [hy, h2]
  · have hy : (y = ':') = False := by
      simp only [eq_iff_iff, iff_false]
      intro he
      exact hcol (by rw [he]; simp)
    have hz : (z = ':') = False := by
      simp only [eq_iff_iff, iff_false]
      intro he
      exact hcol (by rw [he]; simp)
    simp only [List.cons_append, eatHColon]
    simp [hy, hz]

theorem matchTimePat_block {u v : List Char} (hcol : ':' ∉ u) (hne : u ≠ []) :
    matchTimePat (u ++ ',' :: v) = none := by
  rcases u with _ | ⟨c, u2⟩
  · exact absurd rfl hne
  · simp only [List.cons_append, matchTimePat]
    split
    · rename_i hc
      have hdw := @List.dropWhile_append Char isSpaceC u2 (',' :: v)
      by_cases hemp : (u2.dropWhile isSpaceC).isEmpty = true
      · rw [if_pos hemp] at hdw
        rw [hdw]
        have : (',' :: v).dropWhile isSpaceC = ',' :: v := by
          rw [List.dropWhile_cons]
          simp [show isSpaceC ',' = false from by decide]
        rw [this, eatHColon_head_not_digit (by decide)]
      · rw [if_neg hemp] at hdw
        rw [hdw]
        have hsub : List.Sublist (u2.dropWhile isSpaceC) u2 :=
          List.dropWhile_sublist _
        have hcol2 : ':' ∉ u2.dropWhile isSpaceC := by
          intro hx
          exact hcol (List.mem_cons_of_mem c (List.Sublist.mem hx hsub))
        have hne2 : u2.dropWhile isSpaceC ≠ [] := by
          intro hx
          rw [hx] at hemp
          exact hemp rfl
        rw [eatHColon_block hcol2 hne2]
    · rfl

theorem stripTimesAux_nil (fuel : Nat) : stripTimesAux fuel [] = [] := by
  cases fuel <;> rfl

theorem stripTimesAux_append_time {s t : List Char} (hc : ':' ∉ s)
    (ht : matchTimePat (',' :: ' ' :: t) = some []) :
    ∀ fuel, s.length + 1 ≤ fuel →
      stripTimesAux fuel (s ++ ',' :: ' ' :: t) = s := by
  induction s with
  | nil =>
    intro fuel hf
    rcases fuel with _ | n
    · omega
    · simp only [List.nil_append, stripTimesAux]
      rw [ht]
      exact stripTimesAux_nil n
  | cons c cs ih =>
    intro fuel hf
    rcases fuel with _ | n
    · omega
    · have hcol : ':' ∉ c :: cs := hc
      have hnone : matchTimePat ((c :: cs) ++ ',' :: (' ' :: t)) = none :=
        matchTimePat_block hcol (by simp)
      simp only [List.cons_append] at hnone ⊢
      unfold stripTimesAux
      rw [show cs ++ ',' :: ' ' :: t = cs ++ ',' :: (' ' :: t) from rfl] at *
      rw [hnone]
      have hcs : ':' ∉ cs := fun hx => hc (List.mem_cons_of_mem c hx)
      have hlen : cs.length + 1 ≤ n := by
        simp only [List.length_cons] at hf
        omega
      rw [ih hcs n hlen]

/-- C4 (amended): rewriting twice with the same time string is idempotent
for every line that contains no colon and no at-sign and every time string
the removal pattern recognises exactly (a comma, a space and the time string
form one complete match); on a line with a venue at-sign a second rewrite
instead inserts one extra space before the time, as the counterexample
shows. -/
theorem claim_C4_rewrite_idempotent (L t : List Char) (hc : ':' ∉ L)
    (ha : '@' ∉ L) (ht : matchTimePat (',' :: ' ' :: t) = some []) :
    update_line_with_time (update_line_with_time L t) t =
      update_line_with_time L t := by
  have h1 : stripTimes L = L := stripTimes_eq_self hc
  have hfirst : update_line_with_time L t = L ++ (',' :: ' ' :: t) := by
    unfold update_line_with_time
    rw [h1]
    rw [if_neg (fun hcon => ha hcon.1)]
  have h2 : stripTimes (L ++ (',' :: ' ' :: t)) = L := by
    unfold stripTimes
    apply stripTimesAux_append_time hc ht
    simp only [List.length_append, List.length_cons]
    omega
  rw [hfirst]
  unfold update_line_with_time
  rw [h2, if_neg (fun hcon => ha hcon.1)]

/-- C4 witness: the amended statement evaluated on a concrete colon-free,
at-sign-free line and the concrete time string 2:00 PM ET. -/
theorem claim_C4_rewrite_idempotent_witness :
    (':' ∉ "Nov 19, 2025 - vs AS Monaco".data ∧
      '@' ∉ "Nov 19, 2025 - vs AS Monaco".data ∧
      matchTimePat (',' :: ' ' :: "2:00 PM ET".data) = some []) ∧
    update_line_with_time
        (update_line_with_time "Nov 19, 2025 - vs AS Monaco".data "2:00 PM ET".data)
        "2:00 PM ET".data =
      update_line_with_time "Nov 19, 2025 - vs AS Monaco".data "2:00 PM ET".data :=
  ⟨⟨by decide, by decide, by decide⟩,
    claim_C4_rewrite_idempotent "Nov 19, 2025 - vs AS Monaco".data "2:00 PM ET".data
      (by decide) (by decide) (by decide)⟩

/-- C4 counterexample: the claim fails as stated — on this line with a venue
at-sign, rewriting a second time with the same time string does not return
the same line (an extra space accumulates before the inserted time). -/
theorem claim_C4_counterexample :
    update_line_with_time
        (update_line_with_time
          "Nov 13, 2025 - vs Valencia Basket @ Halle Georges Carpentier Arena".data
          "2:45 PM ET".data)
        "2:45 PM ET".data ≠
      update_line_with_time
        "Nov 13, 2025 - vs Valencia Basket @ Halle Georges Carpentier Arena".data
        "2:45 PM ET".data := by
  decide

/-- C9: on an away-game line whose only at-sign is the away marker, the
rewriter inserts the new time before that marker, between the dash and the
opponent, exactly as claimed. -/
theorem claim_C9_away_marker_insertion :
    update_line_with_time "Oct 7, 2025 - @ Real Madrid".data "2:00 PM ET".data =
      "Oct 7, 2025 - , 2:00 PM ET @ Real Madrid".data := by
  decide

/-! The parser and the home-away markers. -/

/-- C2 counterexample: this line contains both the home marker and an
away-marker at-sign not at the start, yet the parser does not return
None — it parses the line (as a home game), refuting the claim that
detecting both markers invalidates the line. -/
theorem claim_C2_counterexample :
    (hasSub "vs ".data
        (pyStrip "Nov 13, 2025 - vs Valencia Basket @ Halle Georges Carpentier Arena".data) = true ∧
      hasSub "@ ".data
        (pyStrip "Nov 13, 2025 - vs Valencia Basket @ Halle Georges Carpentier Arena".data) = true ∧
      leadsWith "@".data
        (pyStrip "Nov 13, 2025 - vs Valencia Basket @ Halle Georges Carpentier Arena".data) = false) ∧
    extract_game_info
        "Nov 13, 2025 - vs Valencia Basket @ Halle Georges Carpentier Arena".data
        "EuroLeague".data ≠ none := by
  refine ⟨⟨?_, ?_, ?_⟩, ?_⟩ <;> decide

/-- C2 (amended): detecting both markers does not invalidate a line; the
home marker takes priority, so every line the parser accepts while the home
marker is present is returned as a home game (is_home true). -/
theorem claim_C2_home_marker_priority (line league : List Char) (g : Game)
    (hvs : hasSub "vs ".data (pyStrip line) = true)
    (h : extract_game_info line league = some g) : g.is_home = true := by
  unfold extract_game_info extractStripped at h
  split at h
  · cases h
  · split at h
    · cases h
    · split at h
      · cases h
      · split at h
        · split at h
          · cases h
          · injection h with h2
            rw [← h2]
        · rename_i hfalse
          exact absurd (by rw [hvs]; rfl) hfalse

/-- C2 witness: the amended statement at a concrete line carrying both
markers. -/
theorem claim_C2_home_marker_priority_witness :
    (hasSub "vs ".data (pyStrip c2exLine) = true ∧
      extract_game_info c2exLine "EuroLeague".data = some c2exGame) ∧
    c2exGame.is_home = true :=
  ⟨⟨by decide, by decide⟩,
    claim_C2_home_marker_priority c2exLine "EuroLeague".data c2exGame
      (by decide) (by decide)⟩

/-- C5: end-to-end scenario 1 — the parser reads the Valencia line, the
reconciler matches the Valencia BC candidate, 20:45 Europe/Paris time
becomes 2:45 PM ET with no leading zero, and the rewritten line ends with
the claimed suffix before the venue. -/
theorem claim_C5_end_to_end_valencia :
    extract_game_info c5exLine "EuroLeague".data = some c5exGame ∧
    match_game c5exGame [c5exCand] = some c5exCand ∧
    format_time_et (convert_to_et c5exCand.local_time "Europe/Paris".data) =
      "2:45 PM ET".data ∧
    trailsWith ", 2:45 PM ET @ Halle Georges Carpentier Arena".data
      (update_line_with_time c5exLine
        (format_time_et (convert_to_et c5exCand.local_time "Europe/Paris".data))) = true := by
  refine ⟨?_, ?_, ?_, ?_⟩ <;> decide

/-! Lemmas about the driver loop. -/

theorem extract_game_info_comment {l : List Char}
    (hh : leadsWith "#".data (pyStrip l) = true) (league : List Char) :
    extract_game_info l league = none := by
  unfold extract_game_info extractStripped
  rw [hh]
  simp

theorem stepLine_skip {cfg : TeamConfig} {l : List Char}
    (hskip : isSkipCategory cfg l = true) (pool : List OfficialGame)
    (lg : Option (List Char)) : (stepLine cfg pool lg l).1 = l := by
  unfold isSkipCategory at hskip
  simp only [Bool.or_eq_true, Bool.and_eq_true, decide_eq_true_eq] at hskip
  unfold stepLine
  by_cases hdrv : pyStrip l = [] ∨
      (hasSub cfg.team_name l = true ∧
        (hasSub "Rank:".data l = true ∨ hasSub "Source:".data l = true)) ∨
      hasSub "(W ".data l = true ∨ hasSub "(L ".data l = true
  · rw [if_pos hdrv]
  · rw [if_neg hdrv]
    rcases hskip with ((((hb | hcom) | hw) | hl2) | hmeta)
    · exact absurd (Or.inl hb) hdrv
    · cases lg with
      | none => rfl
      | some league => simp [extract_game_info_comment hcom league]
    · exact absurd (Or.inr (Or.inr (Or.inl hw))) hdrv
    · exact absurd (Or.inr (Or.inr (Or.inr hl2))) hdrv
    · exact absurd (Or.inr (Or.inl hmeta)) hdrv

/-- C3: over any input lines, the driver loop emits exactly one output line
per input line in order, and every line of a skip category — blank, comment,
completed game, or team metadata header — appears in the output
byte-identical to its input form. -/
theorem claim_C3_driver_preserves_lines (cfg : TeamConfig) (pool : List OfficialGame)
    (lg : Option (List Char)) (lines : List (List Char)) :
    (processLines cfg pool lg lines).1.length = lines.length ∧
    ∀ i (h1 : i < lines.length) (h2 : i < (processLines cfg pool lg lines).1.length),
      isSkipCategory cfg (lines.get ⟨i, h1⟩) = true →
      (processLines cfg pool lg lines).1.get ⟨i, h2⟩ = lines.get ⟨i, h1⟩ := by
  induction lines generalizing lg with
  | nil => exact ⟨rfl, fun i h1 _ _ => absurd h1 (Nat.not_lt_zero i)⟩
  | cons l ls ih =>
    refine ⟨?_, ?_⟩
    · simp only [processLines, List.length_cons]
      rw [(ih (updateLeague cfg lg l)).1]
    · intro i h1 h2 hskip
      cases i with
      | zero =>
        exact stepLine_skip hskip pool (updateLeague cfg lg l)
      | succ n =>
        have h2' : n < (processLines cfg pool (updateLeague cfg lg l) ls).1.length := by
          simp only [processLines, List.length_cons] at h2
          omega
        exact (ih (updateLeague cfg lg l)).2 n (Nat.lt_of_succ_lt_succ h1) h2' hskip

/-- C3 witness: a concrete comment line passes through byte-identical even
with a league context set and a matching pool available. -/
theorem claim_C3_driver_preserves_lines_witness :
    isSkipCategory c10exCfg "# note".data = true ∧
    (processLines c10exCfg [c5exCand] (some "EuroLeague".data) ["# note".data]).1.length = 1 ∧
    (processLines c10exCfg [c5exCand] (some "EuroLeague".data) ["# note".data]).1.get
      ⟨0, by decide⟩ = "# note".data := by
  refine ⟨by decide, ?_, ?_⟩
  · exact (claim_C3_driver_preserves_lines c10exCfg [c5exCand]
      (some "EuroLeague".data) ["# note".data]).1
  · exact (claim_C3_driver_preserves_lines c10exCfg [c5exCand]
      (some "EuroLeague".data) ["# note".data]).2 0 (by decide) (by decide) (by decide)

theorem updateLeague_no_header {cfg : TeamConfig} {l : List Char}
    (hl : hasLeagueHeader cfg l = false) (lg : Option (List Char)) :
    updateLeague cfg lg l = lg := by
  unfold hasLeagueHeader at hl
  unfold updateLeague
  have hn : cfg.leagues.find?
      (fun L => hasSub (L.map upperChar) (l.map upperChar)) = none := by
    rw [List.find?_eq_none]
    intro L hL hcon
    rw [List.any_eq_false] at hl
    exact hl L hL hcon
  rw [hn]

theorem stepLine_no_league (cfg : TeamConfig) (pool : List OfficialGame) (l : List Char) :
    stepLine cfg pool none l = (l, 0, 0, []) := by
  unfold stepLine
  split <;> rfl

/-- C10: while the carried league is still unset, every line that contains
no configured league name passes through the driver byte-identical, adds
nothing to the updated or skipped counters, and is never recorded as
unmatched — whatever the pool holds; processing resumes on the remaining
lines with the league still unset. -/
theorem claim_C10_no_league_passthrough (cfg : TeamConfig) (pool : List OfficialGame)
    (pre rest : List (List Char))
    (hpre : ∀ l ∈ pre, hasLeagueHeader cfg l = false) :
    processLines cfg pool none (pre ++ rest) =
      (pre ++ (processLines cfg pool none rest).1,
        (processLines cfg pool none rest).2) := by
  induction pre with
  | nil => rfl
  | cons l pre2 ih =>
    have hl : hasLeagueHeader cfg l = false := hpre l (List.mem_cons_self l pre2)
    have hUL : updateLeague cfg none l = none := updateLeague_no_header hl none
    simp only [List.cons_append, processLines, List.append_eq]
    rw [hUL, stepLine_no_league,
      ih (fun x hx => hpre x (List.mem_cons_of_mem l hx))]
    simp

/-- C10 witness: a well-formed future-game line with a matching candidate in
the pool, placed before any league header, passes through unchanged with
zero counters and no unmatched record. -/
theorem claim_C10_no_league_passthrough_witness :
    (∀ l ∈ [c5exLine], hasLeagueHeader c10exCfg l = false) ∧
    processLines c10exCfg [c5exCand] none [c5exLine] = ([c5exLine], 0, 0, []) := by
  refine ⟨by decide, ?_⟩
  exact claim_C10_no_league_passthrough c10exCfg [c5exCand] [c5exLine] [] (by decide)

end Tipoff
